import Mathlib

/-!
Shallow embedding of the scramTrimmer FASTQ adapter trimmer (Go).

Conventions used throughout:
* Go strings are modelled as `List Char` (the inputs are ASCII, one byte per
  character, so byte indexing and character indexing coincide).
* Go `int` values are modelled as `Int` (64-bit overflow is unreachable for
  the magnitudes involved).
* Go `float64` values are modelled as real numbers; the single NaN that the
  code can produce (`0.0/0.0` in `meanError` on an empty slice) is modelled
  explicitly by `Option ℝ`, with `none` standing for NaN.  Go's `>=` on
  floats is false whenever an operand is NaN, which the embedding of
  `trimRead` reproduces.
* A Go run-time panic from an out-of-range string slice is modelled as the
  explicit outcome `TrimResult.sliceOutOfRange` (slicing itself is modelled
  by the bounds-checking `goSlice`).
-/

namespace ScramTrimmer

/-- The record model: one FASTQ read (`FastqRead` in the source). -/
structure FastqRead where
  Header : List Char
  Sequence : List Char
  Quality : List Char
deriving DecidableEq, Repr

/-- Go `s[start:stop]` on a string: in bounds (`0 ≤ start ≤ stop ≤ len s`)
it yields the slice, otherwise Go panics, modelled by `none`. -/
def goSlice (s : List Char) (start stop : Int) : Option (List Char) :=
  if 0 ≤ start ∧ start ≤ stop ∧ stop ≤ (s.length : Int) then
    some ((s.drop start.toNat).take (stop - start).toNat)
  else
    none

/-- Leftmost occurrence of `pat` in `s`, as `strings.Index` computes it:
`some i` for the smallest index at which `pat` occurs, `none` when absent.
`strings.Index(s, "")` is `0`, matching the `[]` cases here. -/
def subIndex (pat : List Char) : List Char → Option Nat
  | [] => if pat = [] then some 0 else none
  | c :: rest =>
    if (c :: rest).take pat.length = pat then some 0
    else (subIndex pat rest).map (· + 1)

/-- `strings.Index(s, pat)`: index of the leftmost occurrence, `-1` if absent. -/
def goIndex (s pat : List Char) : Int :=
  match subIndex pat s with
  | some i => (i : Int)
  | none => -1

/-- `pat` occurs in `s` at position `i` (exact substring match). -/
def occursAt (pat s : List Char) (i : Nat) : Prop :=
  (s.drop i).take pat.length = pat

instance (pat s : List Char) (i : Nat) : Decidable (occursAt pat s i) := by
  unfold occursAt; infer_instance

/-- `phred33ToError` from the source: converts a Phred+33 encoded quality
byte into an error probability, `10 ^ (-(qual - 33) / 10)`. -/
noncomputable def phred33ToError (qual : Nat) : ℝ :=
  (10 : ℝ) ^ (-((qual : ℝ) - 33) / 10)

/-- `meanError` from the source: mean of the per-byte error probabilities.
On an empty slice the Go code computes `0.0/0.0`, i.e. NaN, modelled as
`none`; otherwise the exact real mean. -/
noncomputable def meanError (quality : List Char) : Option ℝ :=
  if quality.isEmpty then none
  else some ((quality.map fun c => phred33ToError c.toNat).sum / quality.length)

/-- Outcome of `trimRead`: the Go function returns either a trimmed read or
one of the three error values; an out-of-range slice panics at run time. -/
inductive TrimResult where
  | trimmed (r : FastqRead)
  | adapterMissing
  | tooShort
  | lowQuality
  | sliceOutOfRange
deriving DecidableEq, Repr

/-- `trimRead` from the source, step for step:
search for `adapter[:min5Match]`, reject `adapterMissing` when absent;
compute the window `[trim5, adapterIndex - trim3)` and reject `tooShort`
when its length is `< minLen`; slice sequence and quality (panicking when
out of range); reject `lowQuality` when `meanError >= maxError` (false on
NaN, as for Go float comparison); otherwise return the trimmed read. -/
noncomputable def trimRead (read : FastqRead) (adapter : List Char)
    (minLen trim5 trim3 min5Match : Int) (maxError : ℝ) : TrimResult :=
  match goSlice adapter 0 min5Match with
  | none => .sliceOutOfRange
  | some pre =>
    let adapterIndex := goIndex read.Sequence pre
    if adapterIndex = -1 then .adapterMissing
    else
      let start := trim5
      let stop := adapterIndex - trim3
      if stop - start < minLen then .tooShort
      else
        match goSlice read.Sequence start stop, goSlice read.Quality start stop with
        | some trimmedSequence, some trimmedQuality =>
          match meanError trimmedQuality with
          | none => .trimmed ⟨read.Header, trimmedSequence, trimmedQuality⟩
          | some m =>
            if maxError ≤ m then .lowQuality
            else .trimmed ⟨read.Header, trimmedSequence, trimmedQuality⟩
        | _, _ => .sliceOutOfRange

/-- The run-wide trimming parameters, shared read-only by all workers. -/
structure TrimParams where
  adapter : List Char
  minLen : Int
  trim5 : Int
  trim3 : Int
  min5Match : Int
  maxError : ℝ

/-- Outcome of running the trimming engine on one read. -/
noncomputable def readOutcome (p : TrimParams) (r : FastqRead) : TrimResult :=
  trimRead r p.adapter p.minLen p.trim5 p.trim3 p.min5Match p.maxError

def TrimResult.isTrimmed : TrimResult → Bool
  | .trimmed _ => true
  | _ => false

def TrimResult.isAdapterMissing : TrimResult → Bool
  | .adapterMissing => true
  | _ => false

def TrimResult.isTooShort : TrimResult → Bool
  | .tooShort => true
  | _ => false

def TrimResult.isLowQuality : TrimResult → Bool
  | .lowQuality => true
  | _ => false

def TrimResult.isCrash : TrimResult → Bool
  | .sliceOutOfRange => true
  | _ => false

def TrimResult.survivor : TrimResult → Option FastqRead
  | .trimmed r => some r
  | _ => none

/-- The statistics snapshot: `totalReads`, `totalTrimmedReads` and the three
rejection counters of `ProcessReadsFast` (int64 counters, always
non-negative increments from zero). -/
structure Stats where
  total : Nat
  trimmed : Nat
  adapterMissing : Nat
  tooShort : Nat
  lowQuality : Nat
deriving DecidableEq, Repr

/-- Counters produced by a list of per-read outcomes. -/
def countStats (outs : List TrimResult) : Stats :=
  { total := outs.length
    trimmed := (outs.filter TrimResult.isTrimmed).length
    adapterMissing := (outs.filter TrimResult.isAdapterMissing).length
    tooShort := (outs.filter TrimResult.isTooShort).length
    lowQuality := (outs.filter TrimResult.isLowQuality).length }

/-- `processBatch` from the source: run `trimRead` over every read of the
batch, incrementing the matching rejection counter on error and collecting
the surviving trimmed reads.  A run-time panic in a worker goroutine
crashes the whole process (`none`). -/
noncomputable def processBatch (p : TrimParams) (batch : List FastqRead) :
    Option (Stats × List FastqRead) :=
  let outs := batch.map (readOutcome p)
  if outs.any TrimResult.isCrash then none
  else some (countStats outs, outs.filterMap TrimResult.survivor)

/-! ### Record source: the four-line FASTQ parser of `ProcessReadsFast` -/

/-- The three fatal structural parse errors of `ProcessReadsFast` (the Go
code reports them as formatted strings; the constructors model the kind and
the offending data). -/
inductive ParseError where
  | badHeader (line : List Char)
  | badSeparator (line : List Char)
  | lengthMismatch (m n : Nat)
deriving DecidableEq, Repr

/-- The structural checks the scanner loop performs on one four-line
record, in source order: header must start with `@`, separator must be
exactly `+`, sequence and quality must have equal length. -/
def checkChunk (header sequence plus quality : List Char) : Option ParseError :=
  if header.head? ≠ some '@' then some (.badHeader header)
  else if plus ≠ ['+'] then some (.badSeparator plus)
  else if sequence.length ≠ quality.length then
    some (.lengthMismatch sequence.length quality.length)
  else none

/-- The scanner loop of `ProcessReadsFast`: consume four lines per record
(a `bufio.Scanner` yields `""` from `Text()` once the input is exhausted,
hence the short trailing cases), apply the three structural checks, and
abort with the first fatal error.  Per-read trimming is not involved. -/
def parseReads : List (List Char) → Except ParseError (List FastqRead)
  | [] => .ok []
  | [h] =>
    match checkChunk h [] [] [] with
    | some e => .error e
    | none => .ok [⟨h, [], []⟩]
  | [h, s] =>
    match checkChunk h s [] [] with
    | some e => .error e
    | none => .ok [⟨h, s, []⟩]
  | [h, s, p] =>
    match checkChunk h s p [] with
    | some e => .error e
    | none => .ok [⟨h, s, []⟩]
  | h :: s :: p :: q :: rest =>
    match checkChunk h s p q with
    | some e => .error e
    | none =>
      match parseReads rest with
      | .error e => .error e
      | .ok reads => .ok (⟨h, s, q⟩ :: reads)

/-- The four-line record framing of the input stream (the trailing record
padded with `""` exactly as the exhausted scanner yields it). -/
def chunks4 : List (List Char) → List (List Char × List Char × List Char × List Char)
  | [] => []
  | [h] => [(h, [], [], [])]
  | [h, s] => [(h, s, [], [])]
  | [h, s, p] => [(h, s, p, [])]
  | h :: s :: p :: q :: rest => (h, s, p, q) :: chunks4 rest

/-- A four-line record passes the three structural checks. -/
def validChunk (c : List Char × List Char × List Char × List Char) : Prop :=
  c.1.head? = some '@' ∧ c.2.2.1 = ['+'] ∧ c.2.1.length = c.2.2.2.length

instance (c : List Char × List Char × List Char × List Char) :
    Decidable (validChunk c) := by
  unfold validChunk; infer_instance

/-- The read a structurally valid record denotes. -/
def chunkRead (c : List Char × List Char × List Char × List Char) : FastqRead :=
  ⟨c.1, c.2.1, c.2.2.2⟩

/-- Result of a whole run of `ProcessReadsFast` on the decompressed lines. -/
inductive RunResult where
  | fatalParse (e : ParseError)
  | crash
  | done (st : Stats) (survivors : List FastqRead)
deriving Repr

/-- `ProcessReadsFast` after decompression: parse the stream (fatal on the
first structural error), then run the trimming engine over every parsed
read (the batching is irrelevant to the counters and the surviving set,
see the batch-merge theorem), producing the final statistics snapshot. -/
noncomputable def ProcessReadsFast (p : TrimParams) (lines : List (List Char)) :
    RunResult :=
  match parseReads lines with
  | .error e => .fatalParse e
  | .ok reads =>
    match processBatch p reads with
    | none => .crash
    | some (st, sv) => .done st sv

/-! ### Output sink: `bufio.Writer` over a possibly failing device -/

/-- Model of the `bufio.Writer` wrapping the compression/file layer.
`cap` is the buffer capacity (4096 for the default `bufio.NewWriter`),
`buffered` the bytes currently held, `sinkFails` whether the underlying
device fails writes (e.g. a full disk), `errLatched` the error a
`bufio.Writer` keeps returning once a downstream write has failed. -/
structure BufWriter where
  cap : Nat
  buffered : Nat
  sinkFails : Bool
  errLatched : Bool
deriving DecidableEq, Repr

/-- `writer.WriteString` of `n` bytes: while the data fits in the buffer no
downstream write happens and no error can be reported; only when the
buffer must be flushed does a failing device surface (and latch) an
error.  The returned `Bool` is whether an error was returned. -/
def writeStringW (w : BufWriter) (n : Nat) : BufWriter × Bool :=
  if w.errLatched then (w, true)
  else if w.buffered + n ≤ w.cap then ({ w with buffered := w.buffered + n }, false)
  else if w.sinkFails then ({ w with errLatched := true }, true)
  else ({ w with buffered := n }, false)

/-- `writer.Flush`: pushes any buffered bytes to the device. -/
def flushW (w : BufWriter) : BufWriter × Bool :=
  if w.errLatched then (w, true)
  else if w.buffered = 0 then (w, false)
  else if w.sinkFails then ({ w with errLatched := true }, true)
  else ({ w with buffered := 0 }, false)

/-- Byte counts of the four `WriteString` calls made per surviving read:
header + newline, sequence + newline, `"+\n"`, quality + newline. -/
def readBytes (r : FastqRead) : List Nat :=
  [r.Header.length + 1, r.Sequence.length + 1, 2, r.Quality.length + 1]

/-- A sequence of `WriteString` calls that stops at the first error, as the
loop body of `writeTrimmedReads` does. -/
def writeStrings (w : BufWriter) : List Nat → BufWriter × Bool
  | [] => (w, false)
  | n :: ns =>
    match writeStringW w n with
    | (w1, true) => (w1, true)
    | (w1, false) => writeStrings w1 ns

/-- `writeTrimmedReads` from the source: write each surviving read as four
lines, returning the first `WriteString` error. -/
def writeTrimmedReads (reads : List FastqRead) (w : BufWriter) : BufWriter × Bool :=
  match reads with
  | [] => (w, false)
  | r :: rs =>
    match writeStrings w (readBytes r) with
    | (w1, true) => (w1, true)
    | (w1, false) => writeTrimmedReads rs w1

/-- The output phase of the buffer-then-write `ProcessReadsFast`: run
`writeTrimmedReads` and abort on its error, then call `writer.Flush()`
discarding its result, and report success. -/
def writeAndFinish (reads : List FastqRead) (w : BufWriter) : BufWriter × Bool :=
  match writeTrimmedReads reads w with
  | (w1, true) => (w1, true)
  | (w1, false) => ((flushW w1).1, false)

/-- `writeResults` from the channel-based source: drain the survivors,
calling `WriteString` four times per read and finally `Flush`, with every
result discarded — the function has no error output at all. -/
def writeResults (w : BufWriter) (survivors : List FastqRead) : BufWriter :=
  match survivors with
  | [] => (flushW w).1
  | r :: rs => writeResults ((readBytes r).foldl (fun wa n => (writeStringW wa n).1) w) rs

/-! ### Batch merging (worker-count independence) -/

/-- Componentwise sum of two statistics snapshots. -/
def addStats (a b : Stats) : Stats :=
  ⟨a.total + b.total, a.trimmed + b.trimmed, a.adapterMissing + b.adapterMissing,
    a.tooShort + b.tooShort, a.lowQuality + b.lowQuality⟩

/-- Merge the results of independently processed batches: counters add up,
surviving reads accumulate as a multiset (their interleaving across
workers is scheduler-dependent), and a crash of any worker crashes the
run. -/
noncomputable def combineResults (r : Option (Stats × List FastqRead))
    (acc : Option (Stats × Multiset FastqRead)) : Option (Stats × Multiset FastqRead) :=
  match r, acc with
  | some (s, sv), some (t, m) => some (addStats s t, (sv : Multiset FastqRead) + m)
  | _, _ => none

noncomputable def mergeResults :
    List (Option (Stats × List FastqRead)) → Option (Stats × Multiset FastqRead)
  | [] => some (⟨0, 0, 0, 0, 0⟩, 0)
  | r :: rs => combineResults r (mergeResults rs)

/-! ### Lemmas about the substring search -/

theorem subIndex_nil (s : List Char) : subIndex [] s = some 0 := by
  cases s <;> simp [subIndex]

theorem occursAt_cons_succ (pat : List Char) (c : Char) (rest : List Char) (i : Nat) :
    occursAt pat (c :: rest) (i + 1) ↔ occursAt pat rest i := Iff.rfl

theorem occursAt_zero (pat s : List Char) :
    occursAt pat s 0 ↔ s.take pat.length = pat := by simp [occursAt]

theorem subIndex_eq_none_iff (pat s : List Char) :
    subIndex pat s = none ↔ ∀ i, ¬ occursAt pat s i := by
  induction s with
  | nil =>
    by_cases hpat : pat = []
    · subst hpat
      simp [subIndex, occursAt]
    · simp only [subIndex, if_neg hpat, true_iff]
      intro i h
      apply hpat
      simpa [occursAt, List.take_nil, List.drop_nil, eq_comm] using h
  | cons c rest ih =>
    by_cases h0 : (c :: rest).take pat.length = pat
    · simp only [subIndex, if_pos h0]
      constructor
      · intro h; exact absurd h (by simp)
      · intro h; exact absurd ((occursAt_zero pat (c :: rest)).mpr h0) (h 0)
    · simp only [subIndex, if_neg h0, Option.map_eq_none', ih]
      constructor
      · intro h i
        cases i with
        | zero => exact fun hc => h0 ((occursAt_zero pat (c :: rest)).mp hc)
        | succ j => exact fun hc => h j ((occursAt_cons_succ pat c rest j).mp hc)
      · intro h i hc
        exact h (i + 1) ((occursAt_cons_succ pat c rest i).mpr hc)

theorem subIndex_eq_some (pat s : List Char) (i : Nat)
    (h : subIndex pat s = some i) :
    occursAt pat s i ∧ ∀ j < i, ¬ occursAt pat s j := by
  induction s generalizing i with
  | nil =>
    by_cases hpat : pat = []
    · subst hpat
      simp [subIndex] at h
      subst h
      exact ⟨by simp [occursAt], by omega⟩
    · simp [subIndex, hpat] at h
  | cons c rest ih =>
    by_cases h0 : (c :: rest).take pat.length = pat
    · simp only [subIndex, if_pos h0, Option.some.injEq] at h
      subst h
      exact ⟨(occursAt_zero pat (c :: rest)).mpr h0, by omega⟩
    · simp only [subIndex, if_neg h0, Option.map_eq_some'] at h
      obtain ⟨j, hj, rfl⟩ := h
      obtain ⟨hocc, hmin⟩ := ih j hj
      refine ⟨(occursAt_cons_succ pat c rest j).mpr hocc, ?_⟩
      intro k hk
      cases k with
      | zero => exact fun hc => h0 ((occursAt_zero pat (c :: rest)).mp hc)
      | succ k2 =>
        exact fun hc => hmin k2 (by omega) ((occursAt_cons_succ pat c rest k2).mp hc)

theorem occursAt_length {pat s : List Char} {i : Nat}
    (h : occursAt pat s i) (hpat : pat ≠ []) : i + pat.length ≤ s.length := by
  have hl := congrArg List.length h
  have h1 : 0 < pat.length := List.length_pos.mpr hpat
  simp only [occursAt, List.length_take, List.length_drop] at hl
  omega

theorem subIndex_le {pat s : List Char} {i : Nat}
    (h : subIndex pat s = some i) : i ≤ s.length := by
  by_cases hpat : pat = []
  · subst hpat
    rw [subIndex_nil] at h
    simp only [Option.some.injEq] at h
    omega
  · have h0 : 0 < pat.length := List.length_pos.mpr hpat
    have := occursAt_length (subIndex_eq_some pat s i h).1 hpat
    omega

/-! ### Lemmas about Go slicing -/

theorem goSlice_eq_some {s : List Char} {a b : Int}
    (h1 : 0 ≤ a) (h2 : a ≤ b) (h3 : b ≤ (s.length : Int)) :
    goSlice s a b = some ((s.drop a.toNat).take (b - a).toNat) := by
  unfold goSlice
  rw [if_pos ⟨h1, h2, h3⟩]

theorem goSlice_some_inv {s t : List Char} {a b : Int}
    (h : goSlice s a b = some t) :
    0 ≤ a ∧ a ≤ b ∧ b ≤ (s.length : Int) ∧
      t = (s.drop a.toNat).take (b - a).toNat ∧ t.length = (b - a).toNat := by
  unfold goSlice at h
  split_ifs at h with hb
  · obtain ⟨hb1, hb2, hb3⟩ := hb
    cases h
    refine ⟨hb1, hb2, hb3, rfl, ?_⟩
    simp [List.length_take, List.length_drop]
    omega

/-! ### Path lemmas for `trimRead` -/

theorem trimRead_quality_branch {read : FastqRead} {adapter pre : List Char}
    {minLen trim5 trim3 m : Int} {e : ℝ} {i : Nat} {ts tq : List Char}
    (h1 : goSlice adapter 0 m = some pre)
    (h2 : subIndex pre read.Sequence = some i)
    (h3 : ¬((i : Int) - trim3 - trim5 < minLen))
    (h4 : goSlice read.Sequence trim5 ((i : Int) - trim3) = some ts)
    (h5 : goSlice read.Quality trim5 ((i : Int) - trim3) = some tq)
    (h6 : tq ≠ []) :
    trimRead read adapter minLen trim5 trim3 m e =
      if e ≤ (tq.map fun c => phred33ToError c.toNat).sum / tq.length then
        .lowQuality
      else .trimmed ⟨read.Header, ts, tq⟩ := by
  have hg : goIndex read.Sequence pre = (i : Int) := by
    unfold goIndex; rw [h2]
  have hne : ((i : Int)) ≠ -1 := by omega
  have hmean : meanError tq =
      some ((tq.map fun c => phred33ToError c.toNat).sum / tq.length) := by
    unfold meanError
    rw [if_neg (by simpa using h6)]
  unfold trimRead
  rw [h1]
  dsimp only
  rw [hg, if_neg hne, if_neg h3, h4, h5]
  dsimp only
  rw [hmean]

theorem trimRead_eq_adapterMissing_iff {read : FastqRead} {adapter pre : List Char}
    {minLen trim5 trim3 m : Int} {e : ℝ}
    (h1 : goSlice adapter 0 m = some pre) :
    trimRead read adapter minLen trim5 trim3 m e = .adapterMissing ↔
      subIndex pre read.Sequence = none := by
  unfold trimRead
  rw [h1]
  dsimp only
  cases h2 : subIndex pre read.Sequence with
  | none =>
    have hg : goIndex read.Sequence pre = -1 := by unfold goIndex; rw [h2]
    rw [hg]
    simp
  | some i =>
    have hg : goIndex read.Sequence pre = (i : Int) := by unfold goIndex; rw [h2]
    have hne : ((i : Int)) ≠ -1 := by omega
    rw [hg, if_neg hne]
    simp only [iff_false, reduceCtorEq]
    intro h
    split at h
    · exact TrimResult.noConfusion h
    · split at h
      · split at h
        · exact TrimResult.noConfusion h
        · split at h
          · exact TrimResult.noConfusion h
          · exact TrimResult.noConfusion h
      · exact TrimResult.noConfusion h

theorem trimRead_trimmed_inv {read : FastqRead} {adapter : List Char}
    {minLen trim5 trim3 m : Int} {e : ℝ} {out : FastqRead}
    (h : trimRead read adapter minLen trim5 trim3 m e = .trimmed out) :
    ∃ pre i ts tq,
      goSlice adapter 0 m = some pre ∧
      subIndex pre read.Sequence = some i ∧
      ¬((i : Int) - trim3 - trim5 < minLen) ∧
      goSlice read.Sequence trim5 ((i : Int) - trim3) = some ts ∧
      goSlice read.Quality trim5 ((i : Int) - trim3) = some tq ∧
      out = ⟨read.Header, ts, tq⟩ := by
  unfold trimRead at h
  cases h1 : goSlice adapter 0 m with
  | none => rw [h1] at h; exact TrimResult.noConfusion h
  | some pre =>
    rw [h1] at h
    dsimp only at h
    cases h2 : subIndex pre read.Sequence with
    | none =>
      have hg : goIndex read.Sequence pre = -1 := by unfold goIndex; rw [h2]
      rw [hg, if_pos rfl] at h
      exact TrimResult.noConfusion h
    | some i =>
      have hg : goIndex read.Sequence pre = (i : Int) := by unfold goIndex; rw [h2]
      have hne : ((i : Int)) ≠ -1 := by omega
      rw [hg, if_neg hne] at h
      by_cases h3 : (i : Int) - trim3 - trim5 < minLen
      · rw [if_pos h3] at h; exact TrimResult.noConfusion h
      · rw [if_neg h3] at h
        cases h4 : goSlice read.Sequence trim5 ((i : Int) - trim3) with
        | none =>
          rw [h4] at h
          cases h5 : goSlice read.Quality trim5 ((i : Int) - trim3) <;>
            rw [h5] at h <;> dsimp only at h <;> exact TrimResult.noConfusion h
        | some ts =>
          rw [h4] at h
          cases h5 : goSlice read.Quality trim5 ((i : Int) - trim3) with
          | none => rw [h5] at h; dsimp only at h; exact TrimResult.noConfusion h
          | some tq =>
            rw [h5] at h
            dsimp only at h
            refine ⟨pre, i, ts, tq, rfl, h2, h3, h4, h5, ?_⟩
            cases hm : meanError tq with
            | none =>
              rw [hm] at h
              dsimp only at h
              injection h with h7
              exact h7.symm
            | some mv =>
              rw [hm] at h
              dsimp only at h
              by_cases hq : e ≤ mv
              · rw [if_pos hq] at h; exact TrimResult.noConfusion h
              · rw [if_neg hq] at h
                injection h with h7
                exact h7.symm



theorem trimRead_no_panic {read : FastqRead} {adapter : List Char}
    {minLen trim5 trim3 m : Int} {e : ℝ}
    (hm0 : 0 ≤ m) (hm1 : m ≤ (adapter.length : Int))
    (ht5 : 0 ≤ trim5) (ht3 : 0 ≤ trim3) (hml : 1 ≤ minLen)
    (hlen : read.Quality.length = read.Sequence.length) :
    trimRead read adapter minLen trim5 trim3 m e ≠ .sliceOutOfRange := by
  have hpre : goSlice adapter 0 m = some ((adapter.drop (0 : Int).toNat).take (m - 0).toNat) :=
    goSlice_eq_some le_rfl hm0 hm1
  set pre := (adapter.drop (0 : Int).toNat).take (m - 0).toNat with hpredef
  unfold trimRead
  rw [hpre]
  dsimp only
  cases h2 : subIndex pre read.Sequence with
  | none =>
    have hg : goIndex read.Sequence pre = -1 := by unfold goIndex; rw [h2]
    rw [hg, if_pos rfl]
    exact fun h => TrimResult.noConfusion h
  | some i =>
    have hg : goIndex read.Sequence pre = (i : Int) := by unfold goIndex; rw [h2]
    have hne : ((i : Int)) ≠ -1 := by omega
    rw [hg, if_neg hne]
    by_cases h3 : (i : Int) - trim3 - trim5 < minLen
    · rw [if_pos h3]
      exact fun h => TrimResult.noConfusion h
    · rw [if_neg h3]
      have hile : i ≤ read.Sequence.length := subIndex_le h2
      have hb1 : trim5 ≤ (i : Int) - trim3 := by omega
      have hb2 : (i : Int) - trim3 ≤ (read.Sequence.length : Int) := by omega
      have hb3 : (i : Int) - trim3 ≤ (read.Quality.length : Int) := by
        rw [hlen]; omega
      rw [goSlice_eq_some ht5 hb1 hb2, goSlice_eq_some ht5 hb1 hb3]
      dsimp only
      cases meanError ((read.Quality.drop trim5.toNat).take ((i : Int) - trim3 - trim5).toNat) with
      | none => exact fun h => TrimResult.noConfusion h
      | some mv =>
        dsimp only
        split
        · exact fun h => TrimResult.noConfusion h
        · exact fun h => TrimResult.noConfusion h

theorem length_eq_sum_counts (l : List TrimResult)
    (h : l.any TrimResult.isCrash = false) :
    l.length = (l.filter TrimResult.isTrimmed).length +
      (l.filter TrimResult.isAdapterMissing).length +
      (l.filter TrimResult.isTooShort).length +
      (l.filter TrimResult.isLowQuality).length := by
  induction l with
  | nil => simp
  | cons o t ih =>
    simp only [List.any_cons, Bool.or_eq_false_iff] at h
    obtain ⟨h1, h2⟩ := h
    have ih2 := ih h2
    cases o
    case sliceOutOfRange => simp [TrimResult.isCrash] at h1
    all_goals
      simp [List.filter_cons, TrimResult.isTrimmed, TrimResult.isAdapterMissing,
        TrimResult.isTooShort, TrimResult.isLowQuality]
      omega

theorem processBatch_append (p : TrimParams) (b1 b2 : List FastqRead) :
    processBatch p (b1 ++ b2) =
      match processBatch p b1, processBatch p b2 with
      | some (s, sv), some (t, m) => some (addStats s t, sv ++ m)
      | _, _ => none := by
  unfold processBatch
  cases hc1 : (b1.map (readOutcome p)).any TrimResult.isCrash <;>
    cases hc2 : (b2.map (readOutcome p)).any TrimResult.isCrash <;>
      simp [List.map_append, List.any_append, hc1, hc2, countStats, addStats,
        List.filter_append, List.filterMap_append]

theorem mergeResults_map (p : TrimParams) (batches : List (List FastqRead)) :
    mergeResults (batches.map (processBatch p)) =
      (processBatch p batches.flatten).map fun r => (r.1, (r.2 : Multiset FastqRead)) := by
  induction batches with
  | nil =>
    simp [mergeResults, processBatch, countStats]
  | cons b bs ih =>
    simp only [List.map_cons, List.flatten_cons, mergeResults, ih, processBatch_append]
    cases hb : processBatch p b with
    | none => simp [combineResults]
    | some r1 =>
      obtain ⟨s, sv⟩ := r1
      cases hbs : processBatch p bs.flatten with
      | none => simp [combineResults]
      | some r2 =>
        obtain ⟨t, m⟩ := r2
        simp [combineResults, Multiset.coe_add]



/-! ### Lemmas about the record source -/

theorem checkChunk_eq_none_iff (h s p q : List Char) :
    checkChunk h s p q = none ↔ validChunk (h, s, p, q) := by
  unfold checkChunk validChunk
  split_ifs with a b c <;> simp_all

theorem parseReads_ok_of_valid :
    ∀ lines : List (List Char),
      (∀ c ∈ chunks4 lines, validChunk c) →
      parseReads lines = .ok ((chunks4 lines).map chunkRead) := by
  intro lines
  induction lines using chunks4.induct with
  | case1 => intro _; rfl
  | case2 h =>
    intro hv
    have hc : checkChunk h [] [] [] = none :=
      (checkChunk_eq_none_iff h [] [] []).mpr (hv _ (by simp [chunks4]))
    simp [parseReads, hc, chunks4, chunkRead]
  | case3 h s =>
    intro hv
    have hc : checkChunk h s [] [] = none :=
      (checkChunk_eq_none_iff h s [] []).mpr (hv _ (by simp [chunks4]))
    simp [parseReads, hc, chunks4, chunkRead]
  | case4 h s p =>
    intro hv
    have hc : checkChunk h s p [] = none :=
      (checkChunk_eq_none_iff h s p []).mpr (hv _ (by simp [chunks4]))
    simp [parseReads, hc, chunks4, chunkRead]
  | case5 h s p q rest ih =>
    intro hv
    have hc : checkChunk h s p q = none :=
      (checkChunk_eq_none_iff h s p q).mpr (hv _ (by simp [chunks4]))
    have hrest := ih (fun c hc2 => hv c (by simp [chunks4, hc2]))
    simp [parseReads, hc, hrest, chunks4, chunkRead]

theorem parseReads_error_of_invalid :
    ∀ lines : List (List Char),
      (∃ c ∈ chunks4 lines, ¬ validChunk c) →
      ∃ e, parseReads lines = .error e := by
  intro lines
  induction lines using chunks4.induct with
  | case1 => rintro ⟨c, hc, _⟩; simp [chunks4] at hc
  | case2 h =>
    rintro ⟨c, hc, hbad⟩
    simp [chunks4] at hc
    subst hc
    cases hcc : checkChunk h [] [] [] with
    | none => exact absurd ((checkChunk_eq_none_iff h [] [] []).mp hcc) hbad
    | some e => exact ⟨e, by simp [parseReads, hcc]⟩
  | case3 h s =>
    rintro ⟨c, hc, hbad⟩
    simp [chunks4] at hc
    subst hc
    cases hcc : checkChunk h s [] [] with
    | none => exact absurd ((checkChunk_eq_none_iff h s [] []).mp hcc) hbad
    | some e => exact ⟨e, by simp [parseReads, hcc]⟩
  | case4 h s p =>
    rintro ⟨c, hc, hbad⟩
    simp [chunks4] at hc
    subst hc
    cases hcc : checkChunk h s p [] with
    | none => exact absurd ((checkChunk_eq_none_iff h s p []).mp hcc) hbad
    | some e => exact ⟨e, by simp [parseReads, hcc]⟩
  | case5 h s p q rest ih =>
    rintro ⟨c, hc, hbad⟩
    simp only [chunks4, List.mem_cons] at hc
    cases hcc : checkChunk h s p q with
    | some e => exact ⟨e, by simp [parseReads, hcc]⟩
    | none =>
      rcases hc with hc | hc
      · subst hc
        exact absurd ((checkChunk_eq_none_iff h s p q).mp hcc) hbad
      · obtain ⟨e, he⟩ := ih ⟨c, hc, hbad⟩
        exact ⟨e, by simp [parseReads, hcc, he]⟩

/-! ### Exact values of the quality model -/

theorem phred33ToError_33 : phred33ToError 33 = 1 := by
  have h : -(((33 : Nat) : ℝ) - 33) / 10 = 0 := by norm_num
  rw [phred33ToError, h, Real.rpow_zero]

theorem phred33ToError_43 : phred33ToError 43 = 1 / 10 := by
  have h : -(((43 : Nat) : ℝ) - 33) / 10 = -1 := by norm_num
  rw [phred33ToError, h, Real.rpow_neg_one]
  norm_num

theorem phred33ToError_70_lt : phred33ToError 70 < 1 / 10 := by
  have h1 : phred33ToError 70 = (10 : ℝ) ^ (-(37 : ℝ) / 10) := by
    unfold phred33ToError
    congr 1
    norm_num
  have h2 : (1 : ℝ) / 10 = (10 : ℝ) ^ (-1 : ℝ) := by
    rw [Real.rpow_neg_one]
    norm_num
  rw [h1, h2]
  exact (Real.rpow_lt_rpow_left_iff (by norm_num)).mpr (by norm_num)

theorem mean_formula_all (c : Char) (n : Nat) (hn : 0 < n) :
    ((List.replicate n c).map fun x => phred33ToError x.toNat).sum /
      (((List.replicate n c).length : ℕ) : ℝ) = phred33ToError c.toNat := by
  rw [List.map_replicate, List.sum_replicate, List.length_replicate, nsmul_eq_mul,
    mul_div_cancel_left₀]
  exact_mod_cast hn.ne'

theorem meanError_all (c : Char) (n : Nat) (hn : 0 < n) :
    meanError (List.replicate n c) = some (phred33ToError c.toNat) := by
  unfold meanError
  rw [if_neg (by simp [List.isEmpty_iff]; omega)]
  rw [mean_formula_all c n hn]



/-! ### Claim theorems -/

/-- C1: the claim states that `trimRead` returns `TooShort` whenever
`trim5 < 0`, `trim3 < 0`, the window end is at or before its start, or the
window length is below `minLen`, that a zero-length window always yields
`TooShort`, and that a NaN mean never decides the outcome.  The code only
checks `end - start < minLen`: with `trim5 = -1` and a long enough window
it reaches an out-of-range slice (a run-time panic, not `TooShort`), and
with `minLen = 0` a zero-length window reaches the mean-error computation,
whose NaN result decides the outcome — the read is returned trimmed to
length zero instead of rejected. -/
theorem C1_trimRead_skips_window_validation :
    (trimRead ⟨"@r".toList, "AAAAATCC".toList, "IIIIIIII".toList⟩ ("ATCC".toList)
        2 (-1) 0 4 (1 / 10) = .sliceOutOfRange ∧
      trimRead ⟨"@r".toList, "AAAAATCC".toList, "IIIIIIII".toList⟩ ("ATCC".toList)
        2 (-1) 0 4 (1 / 10) ≠ .tooShort) ∧
    (trimRead ⟨"@r".toList, "ATCGATCC".toList, "IIIIIIII".toList⟩ ("ATCC".toList)
        0 4 0 4 (1 / 10) = .trimmed ⟨"@r".toList, [], []⟩ ∧
      trimRead ⟨"@r".toList, "ATCGATCC".toList, "IIIIIIII".toList⟩ ("ATCC".toList)
        0 4 0 4 (1 / 10) ≠ .tooShort) := by
  have e1 : trimRead ⟨"@r".toList, "AAAAATCC".toList, "IIIIIIII".toList⟩ ("ATCC".toList)
      2 (-1) 0 4 (1 / 10) = .sliceOutOfRange := rfl
  have e2 : trimRead ⟨"@r".toList, "ATCGATCC".toList, "IIIIIIII".toList⟩ ("ATCC".toList)
      0 4 0 4 (1 / 10) = .trimmed ⟨"@r".toList, [], []⟩ := rfl
  exact ⟨⟨e1, by rw [e1]; decide⟩, e2, by rw [e2]; decide⟩

/-- C10: `trimRead` never reaches an out-of-range slice under the
preconditions `0 ≤ min5Match ≤ len adapter`, `trim5 ≥ 0`, `trim3 ≥ 0`,
`minLen ≥ 1` and `len Quality = len Sequence`; outside them — here
`min5Match` one beyond the adapter length — an out-of-range slice is
reached. -/
theorem C10_trimRead_safety :
    (∀ (read : FastqRead) (adapter : List Char) (minLen trim5 trim3 m : Int) (e : ℝ),
      0 ≤ m → m ≤ (adapter.length : Int) → 0 ≤ trim5 → 0 ≤ trim3 → 1 ≤ minLen →
      read.Quality.length = read.Sequence.length →
      trimRead read adapter minLen trim5 trim3 m e ≠ .sliceOutOfRange) ∧
    trimRead ⟨"@x".toList, "ATCG".toList, "IIII".toList⟩ ("ATCC".toList) 2 0 0 5 (1 / 10)
      = .sliceOutOfRange := by
  refine ⟨?_, rfl⟩
  intro read adapter minLen trim5 trim3 m e hm0 hm1 ht5 ht3 hml hlen
  exact trimRead_no_panic hm0 hm1 ht5 ht3 hml hlen

/-- Witness for C10: the safety statement applied to a concrete read and
parameters satisfying every precondition. -/
theorem C10_trimRead_safety_witness :
    (0 : Int) ≤ 4 ∧ (4 : Int) ≤ (("ATCC".toList).length : Int) ∧
    trimRead ⟨"@x".toList, "AAAA".toList, "IIII".toList⟩ ("ATCC".toList) 2 0 0 4 (1 / 10)
      ≠ .sliceOutOfRange :=
  ⟨by decide, by decide,
    C10_trimRead_safety.1 ⟨"@x".toList, "AAAA".toList, "IIII".toList⟩ ("ATCC".toList)
      2 0 0 4 (1 / 10) (by decide) (by decide) (by decide) (by decide) (by decide)
      (by decide)⟩


/-- The adapter-prefix slice `adapter[:min5Match]` under the natural bounds. -/
theorem goSlice_prefix {adapter : List Char} {m : Int}
    (hm0 : 0 ≤ m) (hm1 : m ≤ (adapter.length : Int)) :
    goSlice adapter 0 m = some (adapter.take m.toNat) := by
  rw [goSlice_eq_some le_rfl hm0 hm1]
  simp

/-- C5: `trimRead` rejects `AdapterMissing` exactly when the first
`min5Match` characters of the adapter occur nowhere in the sequence; when
they do occur, the leftmost occurrence index is the window-end basis of
any trimmed result; and the `"TTTT"` / `min5Match = 3` example against
`"ATCGATCG"` is rejected `AdapterMissing`. -/
theorem C5_adapterMissing_characterization :
    (∀ (read : FastqRead) (adapter : List Char) (minLen trim5 trim3 m : Int) (e : ℝ),
      0 ≤ m → m ≤ (adapter.length : Int) →
      (trimRead read adapter minLen trim5 trim3 m e = .adapterMissing ↔
        ∀ i, ¬ occursAt (adapter.take m.toNat) read.Sequence i) ∧
      (∀ out, trimRead read adapter minLen trim5 trim3 m e = .trimmed out →
        ∃ i, occursAt (adapter.take m.toNat) read.Sequence i ∧
          (∀ j < i, ¬ occursAt (adapter.take m.toNat) read.Sequence j) ∧
          out.Sequence =
            (read.Sequence.drop trim5.toNat).take ((i : Int) - trim3 - trim5).toNat)) ∧
    trimRead ⟨"@Header".toList, "ATCGATCG".toList, "FFFFFFFF".toList⟩ ("TTTT".toList)
      4 0 0 3 (1 / 10) = .adapterMissing := by
  refine ⟨?_, rfl⟩
  intro read adapter minLen trim5 trim3 m e hm0 hm1
  have hpre : goSlice adapter 0 m = some (adapter.take m.toNat) := goSlice_prefix hm0 hm1
  constructor
  · exact (trimRead_eq_adapterMissing_iff hpre).trans
      (subIndex_eq_none_iff (adapter.take m.toNat) read.Sequence)
  · intro out hout
    obtain ⟨pre, i, ts, tq, hpre2, h2, h3, h4, h5, hsh⟩ := trimRead_trimmed_inv hout
    have hpp : pre = adapter.take m.toNat := by
      rw [hpre] at hpre2
      exact (Option.some.inj hpre2).symm
    subst hpp
    obtain ⟨hocc, hmin⟩ := subIndex_eq_some _ _ _ h2
    refine ⟨i, hocc, hmin, ?_⟩
    obtain ⟨-, -, -, hts, -⟩ := goSlice_some_inv h4
    rw [hsh]
    exact hts

/-- Witness for C5: the characterization applied at the spec example,
with its hypotheses discharged concretely. -/
theorem C5_adapterMissing_characterization_witness :
    trimRead ⟨"@w".toList, "ATCGATCG".toList, "FFFFFFFF".toList⟩ ("TTTT".toList)
      4 0 0 3 (1 / 10) = .adapterMissing :=
  ((C5_adapterMissing_characterization.1 ⟨"@w".toList, "ATCGATCG".toList, "FFFFFFFF".toList⟩
      ("TTTT".toList) 4 0 0 3 (1 / 10) (by decide) (by decide)).1).mpr
    ((subIndex_eq_none_iff (("TTTT".toList).take (3 : Int).toNat) ("ATCGATCG".toList)).mp
      (by decide))


/-- Evaluation of the spec round-trip example: adapter `"ATCC"`, sequence
`"ATCGATCC"`, quality `"FFFFFFFF"` trims to `"ATCG"` / `"FFFF"` (the mean
error of four code-70 characters is below `0.1`). -/
theorem trimRead_example_ATCC :
    trimRead ⟨"@Header".toList, "ATCGATCC".toList, "FFFFFFFF".toList⟩ ("ATCC".toList)
      2 0 0 4 (1 / 10) =
      .trimmed ⟨"@Header".toList, "ATCG".toList, "FFFF".toList⟩ := by
  have h := @trimRead_quality_branch
    ⟨"@Header".toList, "ATCGATCC".toList, "FFFFFFFF".toList⟩
    ("ATCC".toList) ("ATCC".toList) 2 0 0 4 (1 / 10) 4
    ("ATCG".toList) ("FFFF".toList)
    (by decide) (by decide) (by decide) (by decide) (by decide) (by decide)
  rw [show ("FFFF".toList) = List.replicate 4 'F' from rfl] at h
  rw [mean_formula_all 'F' 4 (by norm_num)] at h
  rw [show ('F'.toNat) = 70 from rfl] at h
  rw [if_neg (not_le.mpr phred33ToError_70_lt)] at h
  exact h

/-- C4: a read that passes all three checks is returned with its
identifier unchanged and its sequence and quality sliced to the window
`[trim5, matchIndex - trim3)`, so both have the same length, at least
`minLen`; and the spec example trims to `"ATCG"` / `"FFFF"`. -/
theorem C4_trimmed_read_shape :
    (∀ (read : FastqRead) (adapter : List Char) (minLen trim5 trim3 m : Int) (e : ℝ)
        (out : FastqRead),
      trimRead read adapter minLen trim5 trim3 m e = .trimmed out →
      out.Header = read.Header ∧
      out.Sequence.length = out.Quality.length ∧
      minLen ≤ (out.Sequence.length : Int) ∧
      ∃ i, subIndex ((adapter.drop (0 : Int).toNat).take (m - 0).toNat) read.Sequence
            = some i ∧
        out.Sequence = (read.Sequence.drop trim5.toNat).take ((i : Int) - trim3 - trim5).toNat ∧
        out.Quality = (read.Quality.drop trim5.toNat).take ((i : Int) - trim3 - trim5).toNat) ∧
    trimRead ⟨"@Header".toList, "ATCGATCC".toList, "FFFFFFFF".toList⟩ ("ATCC".toList)
      2 0 0 4 (1 / 10) =
      .trimmed ⟨"@Header".toList, "ATCG".toList, "FFFF".toList⟩ := by
  refine ⟨?_, trimRead_example_ATCC⟩
  intro read adapter minLen trim5 trim3 m e out hout
  obtain ⟨pre, i, ts, tq, hpre, h2, h3, h4, h5, hsh⟩ := trimRead_trimmed_inv hout
  obtain ⟨-, -, -, hpre2, -⟩ := goSlice_some_inv hpre
  obtain ⟨hb1, hb2, hb3, hts, htsl⟩ := goSlice_some_inv h4
  obtain ⟨-, -, -, htq, htql⟩ := goSlice_some_inv h5
  subst hsh
  subst hpre2
  refine ⟨rfl, ?_, ?_, i, h2, hts, htq⟩
  · simp only
    omega
  · simp only
    omega

/-- Witness for C4: the shape statement applied at the spec example, its
hypothesis discharged by the example evaluation itself. -/
theorem C4_trimmed_read_shape_witness :
    (⟨"@Header".toList, "ATCG".toList, "FFFF".toList⟩ : FastqRead).Header
        = "@Header".toList ∧
    ("ATCG".toList).length = ("FFFF".toList).length ∧
    (2 : Int) ≤ (("ATCG".toList).length : Int) := by
  have h := C4_trimmed_read_shape.1
    ⟨"@Header".toList, "ATCGATCC".toList, "FFFFFFFF".toList⟩ ("ATCC".toList)
    2 0 0 4 (1 / 10) ⟨"@Header".toList, "ATCG".toList, "FFFF".toList⟩
    C4_trimmed_read_shape.2
  exact ⟨h.1, h.2.1, h.2.2.1⟩


/-- Evaluation of the spec low-quality example: `"ATCGATCC"` with quality
all `"!"` (code 33, error probability 1) against adapter `"ATCC"` is
rejected `LowQuality` at `maxError = 0.1`. -/
theorem trimRead_example_lowQuality :
    trimRead ⟨"@Header".toList, "ATCGATCC".toList, "!!!!!!!!".toList⟩ ("ATCC".toList)
      3 0 0 4 (1 / 10) = .lowQuality := by
  have h := @trimRead_quality_branch
    ⟨"@Header".toList, "ATCGATCC".toList, "!!!!!!!!".toList⟩
    ("ATCC".toList) ("ATCC".toList) 3 0 0 4 (1 / 10) 4
    ("ATCG".toList) ("!!!!".toList)
    (by decide) (by decide) (by decide) (by decide) (by decide) (by decide)
  rw [show ("!!!!".toList) = List.replicate 4 '!' from rfl] at h
  rw [mean_formula_all '!' 4 (by norm_num)] at h
  rw [show ('!'.toNat) = 33 from rfl, phred33ToError_33] at h
  rw [if_pos (by norm_num)] at h
  exact h

/-- C6: once the adapter prefix is found and the window passes the length
check (and the run is within the safety preconditions), `trimRead` rejects
`LowQuality` exactly when the mean of the per-base error probabilities
`10 ^ (-(code - 33) / 10)` over the window is at least `maxError` (the
threshold is inclusive); and the all-`"!"` example is rejected
`LowQuality`. -/
theorem C6_lowQuality_iff :
    (∀ (read : FastqRead) (adapter : List Char) (minLen trim5 trim3 m : Int) (e : ℝ)
        (i : Nat),
      0 ≤ m → m ≤ (adapter.length : Int) →
      subIndex (adapter.take m.toNat) read.Sequence = some i →
      0 ≤ trim5 → 0 ≤ trim3 → 1 ≤ minLen →
      minLen ≤ (i : Int) - trim3 - trim5 →
      read.Quality.length = read.Sequence.length →
      (trimRead read adapter minLen trim5 trim3 m e = .lowQuality ↔
        e ≤ (((read.Quality.drop trim5.toNat).take ((i : Int) - trim3 - trim5).toNat).map
              fun c => phred33ToError c.toNat).sum /
            (((read.Quality.drop trim5.toNat).take ((i : Int) - trim3 - trim5).toNat).length : ℝ))) ∧
    trimRead ⟨"@Header".toList, "ATCGATCC".toList, "!!!!!!!!".toList⟩ ("ATCC".toList)
      3 0 0 4 (1 / 10) = .lowQuality := by
  refine ⟨?_, trimRead_example_lowQuality⟩
  intro read adapter minLen trim5 trim3 m e i hm0 hm1 hidx ht5 ht3 hml hwin hlen
  have hpre : goSlice adapter 0 m = some (adapter.take m.toNat) := goSlice_prefix hm0 hm1
  have hile : i ≤ read.Sequence.length := subIndex_le hidx
  have hb1 : trim5 ≤ (i : Int) - trim3 := by omega
  have hb2 : (i : Int) - trim3 ≤ (read.Sequence.length : Int) := by omega
  have hb3 : (i : Int) - trim3 ≤ (read.Quality.length : Int) := by rw [hlen]; omega
  have h4 := @goSlice_eq_some read.Sequence trim5 ((i : Int) - trim3) ht5 hb1 hb2
  have h5 := @goSlice_eq_some read.Quality trim5 ((i : Int) - trim3) ht5 hb1 hb3
  have htql := (goSlice_some_inv h5).2.2.2.2
  have hne : (read.Quality.drop trim5.toNat).take ((i : Int) - trim3 - trim5).toNat ≠ [] := by
    intro hcon
    rw [hcon] at htql
    simp only [List.length_nil] at htql
    omega
  have h := @trimRead_quality_branch read adapter (adapter.take m.toNat) minLen trim5
    trim3 m e i _ _ hpre hidx (by omega) h4 h5 hne
  rw [h]
  by_cases hq : e ≤ (((read.Quality.drop trim5.toNat).take ((i : Int) - trim3 - trim5).toNat).map
      fun c => phred33ToError c.toNat).sum /
      (((read.Quality.drop trim5.toNat).take ((i : Int) - trim3 - trim5).toNat).length : ℝ)
  · rw [if_pos hq]
    exact iff_of_true rfl hq
  · rw [if_neg hq]
    exact iff_of_false (by simp) hq

/-- Witness for C6: the characterization applied at the low-quality
example, every hypothesis discharged concretely. -/
theorem C6_lowQuality_iff_witness :
    subIndex (("ATCC".toList).take (4 : Int).toNat) ("ATCGATCC".toList) = some 4 ∧
    (trimRead ⟨"@Header".toList, "ATCGATCC".toList, "!!!!!!!!".toList⟩ ("ATCC".toList)
        3 0 0 4 (1 / 10) = .lowQuality ↔
      (1 / 10 : ℝ) ≤ (((("!!!!!!!!".toList).drop (0 : Int).toNat).take
            (((4 : Nat) : Int) - 0 - 0).toNat).map fun c => phred33ToError c.toNat).sum /
          (((("!!!!!!!!".toList).drop (0 : Int).toNat).take
            (((4 : Nat) : Int) - 0 - 0).toNat).length : ℝ)) :=
  ⟨by decide,
    C6_lowQuality_iff.1 ⟨"@Header".toList, "ATCGATCC".toList, "!!!!!!!!".toList⟩
      ("ATCC".toList) 3 0 0 4 (1 / 10) 4 (by decide) (by decide) (by decide) (by decide)
      (by decide) (by decide) (by decide) (by decide)⟩


/-- C8 counterexample: the claim asserts the mean error of an all-code-33
quality string is `1.0` for *every* length, but at length zero `meanError`
computes `0.0/0.0`, i.e. NaN (modelled `none`), not `1.0` — as the
repository test suite itself asserts for the empty quality string. -/
theorem C8_empty_mean_is_nan :
    meanError (List.replicate 0 '!') = none ∧
    meanError (List.replicate 0 '!') ≠ some 1 := by
  refine ⟨rfl, ?_⟩
  rw [show meanError (List.replicate 0 '!') = none from rfl]
  simp

/-- C8 (amended): the error probability of Phred+33 code 33 is exactly 1;
the one for code 43 is 0.1 within 1e-5 (in the real-valued model it is
exactly 1/10); and the mean error of an all-code-33 quality string of any
positive length is 1 (at length zero it is NaN, not 1). -/
theorem C8_quality_conversion_values :
    phred33ToError 33 = 1 ∧
    |phred33ToError 43 - 0.1| ≤ 1e-5 ∧
    ∀ n : Nat, 0 < n → meanError (List.replicate n '!') = some 1 := by
  refine ⟨phred33ToError_33, ?_, ?_⟩
  · rw [phred33ToError_43]
    norm_num
  · intro n hn
    rw [meanError_all '!' n hn, show ('!'.toNat) = 33 from rfl, phred33ToError_33]

/-- Witness for C8: the amended statement applied at length 3. -/
theorem C8_quality_conversion_values_witness :
    0 < 3 ∧ meanError (List.replicate 3 '!') = some 1 :=
  ⟨by decide, C8_quality_conversion_values.2.2 3 (by decide)⟩

/-- C2: for every completed run (`processBatch` returns a statistics
snapshot rather than crashing), the counters satisfy
`total = trimmed + adapterMissing + tooShort + lowQuality`: every read
contributes to exactly one of the four categories. -/
theorem C2_stats_invariant :
    ∀ (p : TrimParams) (reads : List FastqRead) (st : Stats) (sv : List FastqRead),
      processBatch p reads = some (st, sv) →
      st.total = st.trimmed + st.adapterMissing + st.tooShort + st.lowQuality := by
  intro p reads st sv h
  unfold processBatch at h
  dsimp only at h
  by_cases hc : (reads.map (readOutcome p)).any TrimResult.isCrash = true
  · rw [if_pos hc] at h
    exact Option.noConfusion h
  · rw [if_neg hc] at h
    injection h with h1
    rw [Prod.mk.injEq] at h1
    obtain ⟨h2, h3⟩ := h1
    subst h2
    simp only [countStats]
    exact length_eq_sum_counts _ (by simpa using hc)

/-- Witness for C2: the invariant at a concrete two-read run (one read
missing the adapter, one rejected too short). -/
theorem C2_stats_invariant_witness :
    processBatch ⟨"ATCC".toList, 2, 0, 0, 4, 1 / 10⟩
        [⟨"@a".toList, "AAAA".toList, "IIII".toList⟩,
         ⟨"@b".toList, "ATCC".toList, "IIII".toList⟩]
      = some (⟨2, 0, 1, 1, 0⟩, []) ∧
    (2 : Nat) = 0 + 1 + 1 + 0 :=
  ⟨rfl, C2_stats_invariant ⟨"ATCC".toList, 2, 0, 0, 4, 1 / 10⟩
    [⟨"@a".toList, "AAAA".toList, "IIII".toList⟩,
     ⟨"@b".toList, "ATCC".toList, "IIII".toList⟩]
    ⟨2, 0, 1, 1, 0⟩ [] rfl⟩

/-- C9: for every way of partitioning the parsed reads into batches,
merging the independently computed per-batch results (summed counters,
surviving reads as a multiset, a crash in any worker crashing the run)
gives exactly the whole-input result — so worker count 1 versus N yields
identical statistics and the identical multiset of surviving reads. -/
theorem C9_batching_equivalence :
    ∀ (p : TrimParams) (batches : List (List FastqRead)) (reads : List FastqRead),
      batches.flatten = reads →
      mergeResults (batches.map (processBatch p)) =
        (processBatch p reads).map fun r => (r.1, (r.2 : Multiset FastqRead)) := by
  intro p batches reads h
  subst h
  exact mergeResults_map p batches

/-- Witness for C9: a two-batch partition of a concrete two-read input. -/
theorem C9_batching_equivalence_witness :
    ([[⟨"@a".toList, "AAAA".toList, "IIII".toList⟩],
      [⟨"@b".toList, "ATCC".toList, "IIII".toList⟩]] :
        List (List FastqRead)).flatten =
      [⟨"@a".toList, "AAAA".toList, "IIII".toList⟩,
       ⟨"@b".toList, "ATCC".toList, "IIII".toList⟩] ∧
    mergeResults (([[⟨"@a".toList, "AAAA".toList, "IIII".toList⟩],
        [⟨"@b".toList, "ATCC".toList, "IIII".toList⟩]] :
          List (List FastqRead)).map
        (processBatch ⟨"ATCC".toList, 2, 0, 0, 4, 1 / 10⟩)) =
      (processBatch ⟨"ATCC".toList, 2, 0, 0, 4, 1 / 10⟩
          [⟨"@a".toList, "AAAA".toList, "IIII".toList⟩,
           ⟨"@b".toList, "ATCC".toList, "IIII".toList⟩]).map
        fun r => (r.1, (r.2 : Multiset FastqRead)) :=
  ⟨rfl, C9_batching_equivalence ⟨"ATCC".toList, 2, 0, 0, 4, 1 / 10⟩ _ _ rfl⟩

/-- C7: the record source consumes the stream in four-line records; the
run returns a fatal parse error exactly when some record violates one of
the three structural checks (all-valid streams parse to exactly the
chunked reads); and once parsing succeeds, the run never reports a fatal
parse error — per-read trimming rejections cannot abort it. -/
theorem C7_parser_fatal_characterization :
    ∀ lines : List (List Char),
      ((∀ c ∈ chunks4 lines, validChunk c) →
        parseReads lines = .ok ((chunks4 lines).map chunkRead)) ∧
      ((∃ c ∈ chunks4 lines, ¬ validChunk c) → ∃ e, parseReads lines = .error e) ∧
      (∀ (p : TrimParams) (reads : List FastqRead) (e : ParseError),
        parseReads lines = .ok reads → ProcessReadsFast p lines ≠ .fatalParse e) := by
  intro lines
  refine ⟨parseReads_ok_of_valid lines, parseReads_error_of_invalid lines, ?_⟩
  intro p reads e hok
  unfold ProcessReadsFast
  rw [hok]
  dsimp only
  cases hpb : processBatch p reads with
  | none => exact fun hcon => RunResult.noConfusion hcon
  | some r =>
    obtain ⟨st, sv⟩ := r
    exact fun hcon => RunResult.noConfusion hcon

/-- Witness for C7: a concrete valid one-record stream parses, and the
full run on it is not a fatal parse error. -/
theorem C7_parser_fatal_characterization_witness :
    parseReads [("@r".toList), ("AC".toList), ("+".toList), ("II".toList)]
      = .ok ((chunks4 [("@r".toList), ("AC".toList), ("+".toList), ("II".toList)]).map
          chunkRead) ∧
    ProcessReadsFast ⟨"ATCC".toList, 2, 0, 0, 4, 1 / 10⟩
        [("@r".toList), ("AC".toList), ("+".toList), ("II".toList)]
      ≠ .fatalParse (ParseError.badSeparator []) :=
  ⟨(C7_parser_fatal_characterization
      [("@r".toList), ("AC".toList), ("+".toList), ("II".toList)]).1 (by decide),
    (C7_parser_fatal_characterization
      [("@r".toList), ("AC".toList), ("+".toList), ("II".toList)]).2.2
      ⟨"ATCC".toList, 2, 0, 0, 4, 1 / 10⟩
      [⟨"@r".toList, "AC".toList, "II".toList⟩] (ParseError.badSeparator []) rfl⟩

/-- C3: the claim states every failed write of a surviving read aborts the
run with the error.  In the buffer-then-write pipeline, reads small enough
to stay in the 4096-byte `bufio` buffer make every `WriteString` succeed;
the data only reaches the failing device at `writer.Flush()`, whose error
the code discards — the run reports success (`false` = no error) while the
writer has latched the downstream write failure.  The channel-based
`writeResults` has no error output at all: it finishes with the failure
latched and nothing surfaced. -/
theorem C3_write_failure_silently_ignored :
    writeAndFinish [⟨"@r".toList, "A".toList, "I".toList⟩] ⟨4096, 0, true, false⟩
      = (⟨4096, 9, true, true⟩, false) ∧
    (writeResults ⟨4096, 0, true, false⟩
        [⟨"@r".toList, "A".toList, "I".toList⟩]).errLatched = true := by
  exact ⟨by decide, by decide⟩

end ScramTrimmer
